import Mathlib

/-!
Verification development for the MyStory backend: a shallow embedding of the
encryption service, the section word-count hook, the authentication middleware
and the ownership-scoped book/section operations, together with theorems
settling the specification claims about them.
-/

namespace MyStory

/-! ### Bytes

Bytes are modelled as natural numbers below 256. -/

/-- All entries of the list are bytes (below 256). -/
def BytesOk (bs : List Nat) : Prop := ∀ x ∈ bs, x < 256

instance : DecidablePred BytesOk := fun bs =>
  inferInstanceAs (Decidable (∀ x ∈ bs, x < 256))

/-! ### UTF-8 encoding

`cipher.update(text, 'utf8', ...)` converts the JavaScript string to its UTF-8
bytes before encryption; decryption converts the bytes back. -/

/-- UTF-8 encoding of a single code point. -/
def utf8EncodeCP (n : Nat) : List Nat :=
  if n < 128 then [n]
  else if n < 2048 then [192 + n / 64, 128 + n % 64]
  else if n < 65536 then [224 + n / 4096, 128 + (n / 64) % 64, 128 + n % 64]
  else [240 + n / 262144, 128 + (n / 4096) % 64, 128 + (n / 64) % 64, 128 + n % 64]

/-- UTF-8 encoding of a character sequence. -/
def utf8Encode : List Char → List Nat
  | [] => []
  | c :: rest => utf8EncodeCP c.toNat ++ utf8Encode rest

/-- Decode one UTF-8 sequence from the head of a byte list, returning the code
point and the remaining bytes. -/
def utf8DecodeOne : List Nat → Option (Nat × List Nat)
  | [] => none
  | b :: bs =>
    if b < 128 then some (b, bs)
    else if b < 192 then none
    else if b < 224 then
      match bs with
      | b2 :: bs2 =>
        if 128 ≤ b2 ∧ b2 < 192 then some ((b - 192) * 64 + (b2 - 128), bs2) else none
      | [] => none
    else if b < 240 then
      match bs with
      | b2 :: b3 :: bs3 =>
        if (128 ≤ b2 ∧ b2 < 192) ∧ (128 ≤ b3 ∧ b3 < 192) then
          some ((b - 224) * 4096 + (b2 - 128) * 64 + (b3 - 128), bs3)
        else none
      | _ => none
    else if b < 248 then
      match bs with
      | b2 :: b3 :: b4 :: bs4 =>
        if (128 ≤ b2 ∧ b2 < 192) ∧ (128 ≤ b3 ∧ b3 < 192) ∧ (128 ≤ b4 ∧ b4 < 192) then
          some ((b - 240) * 262144 + (b2 - 128) * 4096 + (b3 - 128) * 64 + (b4 - 128), bs4)
        else none
      | _ => none
    else none

/-- Fuel-indexed UTF-8 decoding of a whole byte list into code points. -/
def utf8DecodeF : Nat → List Nat → Option (List Nat)
  | _, [] => some []
  | 0, _ :: _ => none
  | fuel + 1, b :: bs =>
    match utf8DecodeOne (b :: bs) with
    | none => none
    | some (n, rest) =>
      match utf8DecodeF fuel rest with
      | none => none
      | some ns => some (n :: ns)

/-- UTF-8 decoding of a byte list into characters. -/
def utf8Decode (bs : List Nat) : Option (List Char) :=
  match utf8DecodeF bs.length bs with
  | none => none
  | some ns => some (ns.map Char.ofNat)

/-! ### Hex encoding

The service emits ciphertext hex-encoded (`'hex'` output encoding) and consumes
hex on decryption. -/

/-- Lower-case hex digit for a value below 16. -/
def hexDigit (n : Nat) : Char :=
  Char.ofNat (if n < 10 then 48 + n else 87 + n)

/-- Value of a hex digit character (upper or lower case). -/
def hexVal (c : Char) : Option Nat :=
  if 48 ≤ c.toNat ∧ c.toNat ≤ 57 then some (c.toNat - 48)
  else if 97 ≤ c.toNat ∧ c.toNat ≤ 102 then some (c.toNat - 87)
  else if 65 ≤ c.toNat ∧ c.toNat ≤ 70 then some (c.toNat - 55)
  else none

/-- Hex-encode a byte list, two digits per byte. -/
def hexEncode : List Nat → List Char
  | [] => []
  | b :: bs => hexDigit (b / 16) :: hexDigit (b % 16) :: hexEncode bs

/-- Hex-decode a character list; fails on odd length or non-hex characters. -/
def hexDecode : List Char → Option (List Nat)
  | [] => some []
  | [_] => none
  | c1 :: c2 :: rest =>
    match hexVal c1, hexVal c2, hexDecode rest with
    | some h, some l, some bs => some ((h * 16 + l) :: bs)
    | _, _, _ => none

/-! ### PKCS#7 padding and CBC chaining

`aes-256-cbc` in Node applies PKCS#7 padding to a 16-byte block size and chains
blocks in CBC mode starting from the configured IV. -/

/-- Number of padding bytes PKCS#7 appends to a message of length `n`
(always between 1 and 16). -/
def padLen (n : Nat) : Nat := 16 - n % 16

/-- PKCS#7-pad a byte list to a multiple of the 16-byte block size. -/
def pkcs7Pad (bs : List Nat) : List Nat :=
  bs ++ List.replicate (padLen bs.length) (padLen bs.length)

/-- Strip and validate PKCS#7 padding: the last byte gives the padding length,
which must be between 1 and 16 and repeated over the whole padding. -/
def pkcs7Unpad (bs : List Nat) : Option (List Nat) :=
  let n := bs.getLastD 0
  if 1 ≤ n ∧ n ≤ 16 ∧ n ≤ bs.length ∧ bs.drop (bs.length - n) = List.replicate n n then
    some (bs.take (bs.length - n))
  else none

/-- Pointwise xor of two byte lists. -/
def zipXor (a b : List Nat) : List Nat := List.zipWith (fun x y => x ^^^ y) a b

/-- The block primitive (AES-256 under the configured key in the source) is an
external collaborator; it is abstracted as a pair of functions on 16-byte
blocks. -/
structure BlockCipher where
  enc : List Nat → List Nat
  dec : List Nat → List Nat

/-- The block primitive is a permutation of 16-byte blocks: decryption inverts
encryption, and encryption preserves block length and byte bounds. -/
def GoodBlockCipher (bc : BlockCipher) : Prop :=
  ∀ b : List Nat, b.length = 16 → BytesOk b →
    bc.dec (bc.enc b) = b ∧ (bc.enc b).length = 16 ∧ BytesOk (bc.enc b)

/-- CBC encryption over a list of blocks with chaining value `prev`. -/
def cbcEncBlocks (e : List Nat → List Nat) : List Nat → List (List Nat) → List (List Nat)
  | _, [] => []
  | prev, b :: bs =>
    let c := e (zipXor b prev)
    c :: cbcEncBlocks e c bs

/-- CBC decryption over a list of blocks with chaining value `prev`. -/
def cbcDecBlocks (d : List Nat → List Nat) : List Nat → List (List Nat) → List (List Nat)
  | _, [] => []
  | prev, c :: cs => zipXor (d c) prev :: cbcDecBlocks d c cs

/-- Fuel-indexed splitting of a byte list into 16-byte chunks. -/
def chunksF : Nat → List Nat → List (List Nat)
  | _, [] => []
  | 0, _ :: _ => []
  | fuel + 1, b :: bs => (b :: bs).take 16 :: chunksF fuel ((b :: bs).drop 16)

/-- Split a byte list into 16-byte chunks. -/
def chunks (bs : List Nat) : List (List Nat) := chunksF bs.length bs

/-! ### The encryption service

`EncryptionService.encrypt` and `EncryptionService.decrypt` from
`src/services/encryption.service.js`, with the AES block primitive and the
configured IV abstracted into a `CipherConfig`. -/

/-- The fixed configuration of the service: block primitive and 16-byte IV. -/
structure CipherConfig where
  bc : BlockCipher
  iv : List Nat

/-- A well-formed configuration: good block primitive and a 16-byte IV. -/
def GoodConfig (cfg : CipherConfig) : Prop :=
  GoodBlockCipher cfg.bc ∧ cfg.iv.length = 16 ∧ BytesOk cfg.iv

/-- Byte-level encryption: PKCS#7 padding followed by CBC encryption. -/
def encryptBytes (cfg : CipherConfig) (bs : List Nat) : List Nat :=
  (cbcEncBlocks cfg.bc.enc cfg.iv (chunks (pkcs7Pad bs))).flatten

/-- `EncryptionService.encrypt`: UTF-8 encode, pad, CBC-encrypt, hex-encode. -/
def encrypt (cfg : CipherConfig) (s : String) : String :=
  ⟨hexEncode (encryptBytes cfg (utf8Encode s.data))⟩

/-- `EncryptionService.decrypt`: hex-decode, CBC-decrypt, unpad, UTF-8 decode.
Returns `none` where the source throws a decryption error. -/
def decrypt (cfg : CipherConfig) (c : String) : Option String :=
  match hexDecode c.data with
  | none => none
  | some bs =>
    if bs.length = 0 ∨ bs.length % 16 ≠ 0 then none
    else
      match pkcs7Unpad (cbcDecBlocks cfg.bc.dec cfg.iv (chunks bs)).flatten with
      | none => none
      | some pt =>
        match utf8Decode pt with
        | none => none
        | some cs => some ⟨cs⟩

/-- A concrete executable block primitive (xor with a constant byte) used to
instantiate witnesses. -/
def xorBlockCipher : BlockCipher :=
  ⟨fun b => b.map (fun x => x ^^^ 170), fun b => b.map (fun x => x ^^^ 170)⟩

/-- A concrete configuration for witnesses: xor block primitive, IV of 16
copies of the byte 65. -/
def cfg0 : CipherConfig := ⟨xorBlockCipher, List.replicate 16 65⟩

/-! ### UTF-8 lemmas -/

theorem char_toNat_lt (c : Char) : c.toNat < 1114112 := by
  rcases c.valid with h | ⟨_, h2⟩
  · exact Nat.lt_trans h (by decide)
  · exact h2

theorem utf8EncodeCP_length_pos (n : Nat) : 0 < (utf8EncodeCP n).length := by
  unfold utf8EncodeCP
  split_ifs <;> simp

theorem utf8EncodeCP_ne_nil (n : Nat) : utf8EncodeCP n ≠ [] := by
  intro h
  have := utf8EncodeCP_length_pos n
  rw [h] at this
  simp at this

theorem bytesOk_utf8EncodeCP (n : Nat) (h : n < 1114112) : BytesOk (utf8EncodeCP n) := by
  unfold utf8EncodeCP
  split_ifs with h1 h2 h3 <;> intro x hx <;>
    simp only [List.mem_cons, List.not_mem_nil, or_false] at hx
  · omega
  · rcases hx with rfl | rfl <;> omega
  · rcases hx with rfl | rfl | rfl <;> omega
  · rcases hx with rfl | rfl | rfl | rfl <;> omega

theorem bytesOk_utf8Encode (cs : List Char) : BytesOk (utf8Encode cs) := by
  induction cs with
  | nil => intro x hx; simp [utf8Encode] at hx
  | cons c cs ih =>
    intro x hx
    simp only [utf8Encode, List.mem_append] at hx
    rcases hx with hx | hx
    · exact bytesOk_utf8EncodeCP c.toNat (char_toNat_lt c) x hx
    · exact ih x hx

theorem utf8DecodeOne_encodeCP (n : Nat) (rest : List Nat) (h : n < 1114112) :
    utf8DecodeOne (utf8EncodeCP n ++ rest) = some (n, rest) := by
  unfold utf8EncodeCP
  split_ifs with h1 h2 h3
  · simp only [List.cons_append, List.nil_append, utf8DecodeOne]
    rw [if_pos h1]
  · simp only [List.cons_append, List.nil_append, utf8DecodeOne]
    rw [if_neg (by omega), if_neg (by omega), if_pos (by omega), if_pos (by omega)]
    have : (192 + n / 64 - 192) * 64 + (128 + n % 64 - 128) = n := by omega
    rw [this]
  · simp only [List.cons_append, List.nil_append, utf8DecodeOne]
    rw [if_neg (by omega), if_neg (by omega), if_neg (by omega), if_pos (by omega),
      if_pos (by constructor <;> constructor <;> omega)]
    have : (224 + n / 4096 - 224) * 4096 + (128 + n / 64 % 64 - 128) * 64 +
        (128 + n % 64 - 128) = n := by omega
    rw [this]
  · simp only [List.cons_append, List.nil_append, utf8DecodeOne]
    rw [if_neg (by omega), if_neg (by omega), if_neg (by omega), if_neg (by omega),
      if_pos (by omega), if_pos (by refine ⟨⟨?_, ?_⟩, ⟨?_, ?_⟩, ?_, ?_⟩ <;> omega)]
    have : (240 + n / 262144 - 240) * 262144 + (128 + n / 4096 % 64 - 128) * 4096 +
        (128 + n / 64 % 64 - 128) * 64 + (128 + n % 64 - 128) = n := by omega
    rw [this]

theorem utf8DecodeF_encode (cs : List Char) :
    ∀ fuel, cs.length ≤ fuel →
      utf8DecodeF fuel (utf8Encode cs) = some (cs.map Char.toNat) := by
  induction cs with
  | nil => intro fuel _; simp [utf8Encode, utf8DecodeF]
  | cons c cs ih =>
    intro fuel hfuel
    cases fuel with
    | zero => simp at hfuel
    | succ f =>
      rcases hb : utf8EncodeCP c.toNat with _ | ⟨b, bsTail⟩
      · exact absurd hb (utf8EncodeCP_ne_nil _)
      · have henc : utf8Encode (c :: cs) = b :: (bsTail ++ utf8Encode cs) := by
          simp [utf8Encode, hb]
        have hdec : utf8DecodeOne (b :: (bsTail ++ utf8Encode cs)) =
            some (c.toNat, utf8Encode cs) := by
          have h0 := utf8DecodeOne_encodeCP c.toNat (utf8Encode cs) (char_toNat_lt c)
          rwa [hb, List.cons_append] at h0
        rw [henc]
        simp only [utf8DecodeF, hdec, ih f (by simp at hfuel; omega)]
        simp

theorem utf8Encode_length_ge (cs : List Char) : cs.length ≤ (utf8Encode cs).length := by
  induction cs with
  | nil => simp [utf8Encode]
  | cons c cs ih =>
    simp only [utf8Encode, List.length_append, List.length_cons]
    have := utf8EncodeCP_length_pos c.toNat
    omega

theorem utf8Decode_encode (cs : List Char) : utf8Decode (utf8Encode cs) = some cs := by
  unfold utf8Decode
  rw [utf8DecodeF_encode cs _ (utf8Encode_length_ge cs)]
  show some ((cs.map Char.toNat).map Char.ofNat) = some cs
  rw [List.map_map,
    show Char.ofNat ∘ Char.toNat = id from funext fun c => Char.ofNat_toNat c, List.map_id]

/-! ### Hex lemmas -/

theorem hexVal_hexDigit : ∀ n < 16, hexVal (hexDigit n) = some n := by decide

theorem hexDecode_encode (bs : List Nat) :
    BytesOk bs → hexDecode (hexEncode bs) = some bs := by
  induction bs with
  | nil => intro _; simp [hexEncode, hexDecode]
  | cons b bs ih =>
    intro h
    have hb : b < 256 := h b (by simp)
    have h1 : hexVal (hexDigit (b / 16)) = some (b / 16) := hexVal_hexDigit _ (by omega)
    have h2 : hexVal (hexDigit (b % 16)) = some (b % 16) := hexVal_hexDigit _ (by omega)
    have ih2 := ih (fun x hx => h x (List.mem_cons_of_mem b hx))
    simp only [hexEncode, hexDecode, h1, h2, ih2]
    have : b / 16 * 16 + b % 16 = b := by omega
    rw [this]

/-! ### Padding lemmas -/

theorem padLen_pos (n : Nat) : 1 ≤ padLen n := by unfold padLen; omega

theorem padLen_le (n : Nat) : padLen n ≤ 16 := by unfold padLen; omega

theorem pkcs7Pad_length (bs : List Nat) :
    (pkcs7Pad bs).length = bs.length + padLen bs.length := by
  simp [pkcs7Pad]

theorem pkcs7Pad_length_mod (bs : List Nat) : (pkcs7Pad bs).length % 16 = 0 := by
  rw [pkcs7Pad_length]
  unfold padLen
  omega

theorem pkcs7Pad_length_pos (bs : List Nat) : 0 < (pkcs7Pad bs).length := by
  rw [pkcs7Pad_length]
  have := padLen_pos bs.length
  omega

theorem bytesOk_pkcs7Pad (bs : List Nat) (h : BytesOk bs) : BytesOk (pkcs7Pad bs) := by
  intro x hx
  simp only [pkcs7Pad, List.mem_append] at hx
  rcases hx with hx | hx
  · exact h x hx
  · have := List.eq_of_mem_replicate hx
    have := padLen_le bs.length
    omega

theorem pkcs7Unpad_pad (bs : List Nat) : pkcs7Unpad (pkcs7Pad bs) = some bs := by
  have h1 := padLen_pos bs.length
  have h16 := padLen_le bs.length
  obtain ⟨m, hm⟩ : ∃ m, padLen bs.length = m + 1 := ⟨padLen bs.length - 1, by omega⟩
  have hlast : (pkcs7Pad bs).getLastD 0 = padLen bs.length := by
    unfold pkcs7Pad
    rw [hm, List.replicate_succ', ← List.append_assoc, List.getLastD_concat]
  have hsub : (pkcs7Pad bs).length - padLen bs.length = bs.length := by
    rw [pkcs7Pad_length]; omega
  have hdrop : (pkcs7Pad bs).drop ((pkcs7Pad bs).length - padLen bs.length) =
      List.replicate (padLen bs.length) (padLen bs.length) := by
    rw [hsub]
    unfold pkcs7Pad
    exact List.drop_left bs _
  have htake : (pkcs7Pad bs).take ((pkcs7Pad bs).length - padLen bs.length) = bs := by
    rw [hsub]
    unfold pkcs7Pad
    exact List.take_left bs _
  unfold pkcs7Unpad
  rw [hlast]
  rw [if_pos ⟨h1, h16, by rw [pkcs7Pad_length]; omega, hdrop⟩, htake]

/-! ### Chunking lemmas -/

theorem chunksF_flatten (fuel : Nat) :
    ∀ bs : List Nat, bs.length ≤ fuel → (chunksF fuel bs).flatten = bs := by
  induction fuel with
  | zero =>
    intro bs h
    cases bs with
    | nil => simp [chunksF]
    | cons b t => simp at h
  | succ f ih =>
    intro bs h
    cases bs with
    | nil => simp [chunksF]
    | cons b t =>
      simp only [chunksF, List.flatten_cons]
      rw [ih _ (by rw [List.length_drop]; simp at h ⊢; omega)]
      exact List.take_append_drop 16 (b :: t)

theorem chunks_flatten (bs : List Nat) : (chunks bs).flatten = bs :=
  chunksF_flatten bs.length bs le_rfl

theorem chunksF_block_length (fuel : Nat) :
    ∀ bs : List Nat, bs.length ≤ fuel → bs.length % 16 = 0 →
      ∀ blk ∈ chunksF fuel bs, blk.length = 16 := by
  induction fuel with
  | zero =>
    intro bs h _ blk hblk
    cases bs with
    | nil => simp [chunksF] at hblk
    | cons b t => simp at h
  | succ f ih =>
    intro bs h hmod blk hblk
    cases bs with
    | nil => simp [chunksF] at hblk
    | cons b t =>
      have hge : 16 ≤ (b :: t).length := by
        have : 0 < (b :: t).length := by simp
        omega
      simp only [chunksF, List.mem_cons] at hblk
      rcases hblk with rfl | hblk
      · rw [List.length_take]; omega
      · refine ih _ ?_ ?_ blk hblk
        · rw [List.length_drop]; simp at h ⊢; omega
        · rw [List.length_drop]; omega

theorem chunks_block_length (bs : List Nat) (hmod : bs.length % 16 = 0) :
    ∀ blk ∈ chunks bs, blk.length = 16 :=
  chunksF_block_length bs.length bs le_rfl hmod

theorem chunksF_mem_mem (fuel : Nat) :
    ∀ bs blk, blk ∈ chunksF fuel bs → ∀ x ∈ blk, x ∈ bs := by
  induction fuel with
  | zero =>
    intro bs blk hblk
    cases bs with
    | nil => simp [chunksF] at hblk
    | cons b t => simp [chunksF] at hblk
  | succ f ih =>
    intro bs blk hblk x hx
    cases bs with
    | nil => simp [chunksF] at hblk
    | cons b t =>
      simp only [chunksF, List.mem_cons] at hblk
      rcases hblk with rfl | hblk
      · exact List.mem_of_mem_take hx
      · exact List.mem_of_mem_drop (ih _ blk hblk x hx)

theorem chunksF_of_blocks (bls : List (List Nat)) :
    ∀ fuel, (∀ b ∈ bls, b.length = 16) → bls.flatten.length ≤ fuel →
      chunksF fuel bls.flatten = bls := by
  induction bls with
  | nil => intro fuel _ _; simp [chunksF]
  | cons b bls ih =>
    intro fuel hb hf
    have hb16 : b.length = 16 := hb b (List.mem_cons_self b bls)
    rcases b with _ | ⟨x, xs⟩
    · simp at hb16
    · cases fuel with
      | zero =>
        exfalso
        simp only [List.flatten_cons, List.length_append, List.length_cons] at hf
        omega
      | succ f =>
        have hflat : ((x :: xs) :: bls).flatten = x :: (xs ++ bls.flatten) := by
          simp [List.flatten_cons]
        rw [hflat]
        simp only [chunksF]
        have hx1 : (x :: (xs ++ bls.flatten)).take 16 = x :: xs := by
          rw [show x :: (xs ++ bls.flatten) = (x :: xs) ++ bls.flatten from rfl, ← hb16]
          exact List.take_left (x :: xs) bls.flatten
        have hx2 : (x :: (xs ++ bls.flatten)).drop 16 = bls.flatten := by
          rw [show x :: (xs ++ bls.flatten) = (x :: xs) ++ bls.flatten from rfl, ← hb16]
          exact List.drop_left (x :: xs) bls.flatten
        rw [hx1, hx2, ih f (fun blk hblk => hb blk (List.mem_cons_of_mem _ hblk))]
        simp at hf ⊢
        omega

/-! ### XOR and CBC lemmas -/

theorem zipXor_length (a b : List Nat) : (zipXor a b).length = min a.length b.length := by
  simp [zipXor]

theorem zipXor_zipXor (a : List Nat) :
    ∀ b : List Nat, a.length = b.length → zipXor (zipXor a b) b = a := by
  induction a with
  | nil => intro b _; simp [zipXor]
  | cons x xs ih =>
    intro b hlen
    cases b with
    | nil => simp at hlen
    | cons y ys =>
      simp only [zipXor, List.zipWith_cons_cons]
      have hx : x ^^^ y ^^^ y = x := by rw [Nat.xor_assoc, Nat.xor_self, Nat.xor_zero]
      have ht := ih ys (by simp at hlen; omega)
      simp only [zipXor] at ht
      rw [hx, ht]

theorem bytesOk_zipXor (a : List Nat) :
    ∀ b : List Nat, BytesOk a → BytesOk b → BytesOk (zipXor a b) := by
  induction a with
  | nil => intro b _ _ x hx; simp [zipXor] at hx
  | cons u us ih =>
    intro b ha hb x hx
    cases b with
    | nil => simp [zipXor] at hx
    | cons v vs =>
      simp only [zipXor, List.zipWith_cons_cons, List.mem_cons] at hx
      rcases hx with rfl | hx
      · have hu : u < 2 ^ 8 := ha u (List.mem_cons_self u us)
        have hv : v < 2 ^ 8 := hb v (List.mem_cons_self v vs)
        exact Nat.xor_lt_two_pow hu hv
      · exact ih vs (fun z hz => ha z (List.mem_cons_of_mem _ hz))
          (fun z hz => hb z (List.mem_cons_of_mem _ hz)) x hx

theorem cbcEncBlocks_ok (bc : BlockCipher) (hbc : GoodBlockCipher bc)
    (bls : List (List Nat)) :
    ∀ prev, (∀ b ∈ bls, b.length = 16 ∧ BytesOk b) → prev.length = 16 → BytesOk prev →
      (∀ c ∈ cbcEncBlocks bc.enc prev bls, c.length = 16 ∧ BytesOk c) ∧
      (cbcEncBlocks bc.enc prev bls).length = bls.length ∧
      cbcDecBlocks bc.dec prev (cbcEncBlocks bc.enc prev bls) = bls := by
  induction bls with
  | nil =>
    intro prev _ _ _
    refine ⟨?_, rfl, rfl⟩
    intro c hc
    simp [cbcEncBlocks] at hc
  | cons b bls ih =>
    intro prev hbls hprevLen hprevOk
    obtain ⟨hbLen, hbOk⟩ := hbls b (List.mem_cons_self b bls)
    have hxLen : (zipXor b prev).length = 16 := by
      rw [zipXor_length, hbLen, hprevLen]; simp
    have hxOk : BytesOk (zipXor b prev) := bytesOk_zipXor b prev hbOk hprevOk
    obtain ⟨hdec, hcLen, hcOk⟩ := hbc (zipXor b prev) hxLen hxOk
    obtain ⟨ih1, ih2, ih3⟩ := ih (bc.enc (zipXor b prev))
      (fun blk hblk => hbls blk (List.mem_cons_of_mem _ hblk)) hcLen hcOk
    refine ⟨?_, ?_, ?_⟩
    · intro c hc
      simp only [cbcEncBlocks, List.mem_cons] at hc
      rcases hc with rfl | hc
      · exact ⟨hcLen, hcOk⟩
      · exact ih1 c hc
    · simp only [cbcEncBlocks, List.length_cons, ih2]
    · simp only [cbcEncBlocks, cbcDecBlocks, hdec, ih3]
      rw [zipXor_zipXor b prev (by omega)]

/-! ### Flatten lemmas -/

theorem flatten_length_blocks (bls : List (List Nat))
    (h : ∀ b ∈ bls, b.length = 16) : bls.flatten.length = 16 * bls.length := by
  induction bls with
  | nil => simp
  | cons b bls ih =>
    simp only [List.flatten_cons, List.length_append, List.length_cons]
    rw [h b (List.mem_cons_self b bls), ih (fun blk hblk => h blk (List.mem_cons_of_mem _ hblk))]
    ring

theorem bytesOk_flatten (bls : List (List Nat)) (h : ∀ b ∈ bls, BytesOk b) :
    BytesOk bls.flatten := by
  intro x hx
  rw [List.mem_flatten] at hx
  obtain ⟨l, hl, hxl⟩ := hx
  exact h l hl x hxl

/-! ### Claim C1 -/

/-- Claim C1: for every UTF-8 string `s`, including the empty string,
decrypting the result of encrypting `s` with the configured cipher (fixed key
abstracted as a block permutation, fixed 16-byte IV, CBC with PKCS#7 padding,
hex-encoded output) returns `s`. -/
theorem c1_decrypt_encrypt_round_trip (cfg : CipherConfig) (hcfg : GoodConfig cfg)
    (s : String) : decrypt cfg (encrypt cfg s) = some s := by
  obtain ⟨hbc, hivLen, hivOk⟩ := hcfg
  have hptOk : BytesOk (utf8Encode s.data) := bytesOk_utf8Encode s.data
  have hpadOk : BytesOk (pkcs7Pad (utf8Encode s.data)) := bytesOk_pkcs7Pad _ hptOk
  have hpadMod := pkcs7Pad_length_mod (utf8Encode s.data)
  have hpadPos := pkcs7Pad_length_pos (utf8Encode s.data)
  have hblocks16 := chunks_block_length _ hpadMod
  have hblocksOk : ∀ blk ∈ chunks (pkcs7Pad (utf8Encode s.data)), BytesOk blk := by
    intro blk hblk x hx
    exact hpadOk x (chunksF_mem_mem _ _ blk hblk x hx)
  obtain ⟨hcOk, hcLen, hcDec⟩ := cbcEncBlocks_ok cfg.bc hbc
    (chunks (pkcs7Pad (utf8Encode s.data))) cfg.iv
    (fun b hb => ⟨hblocks16 b hb, hblocksOk b hb⟩) hivLen hivOk
  have hctOk : BytesOk (encryptBytes cfg (utf8Encode s.data)) := by
    unfold encryptBytes
    exact bytesOk_flatten _ (fun b hb => (hcOk b hb).2)
  have hctLen : (encryptBytes cfg (utf8Encode s.data)).length =
      16 * (cbcEncBlocks cfg.bc.enc cfg.iv
        (chunks (pkcs7Pad (utf8Encode s.data)))).length := by
    unfold encryptBytes
    exact flatten_length_blocks _ (fun b hb => (hcOk b hb).1)
  have hchunksNe : chunks (pkcs7Pad (utf8Encode s.data)) ≠ [] := by
    intro h0
    have hfl := chunks_flatten (pkcs7Pad (utf8Encode s.data))
    rw [h0] at hfl
    simp only [List.flatten_nil] at hfl
    rw [← hfl] at hpadPos
    simp at hpadPos
  have hctMod : (encryptBytes cfg (utf8Encode s.data)).length % 16 = 0 := by
    rw [hctLen]; omega
  have hctNe : ¬ (encryptBytes cfg (utf8Encode s.data)).length = 0 := by
    rw [hctLen, hcLen]
    have := List.length_pos.mpr hchunksNe
    omega
  have hchunksCt : chunks (encryptBytes cfg (utf8Encode s.data)) =
      cbcEncBlocks cfg.bc.enc cfg.iv (chunks (pkcs7Pad (utf8Encode s.data))) := by
    unfold encryptBytes chunks
    exact chunksF_of_blocks _ _ (fun b hb => (hcOk b hb).1) le_rfl
  show decrypt cfg ⟨hexEncode (encryptBytes cfg (utf8Encode s.data))⟩ = some s
  unfold decrypt
  rw [show (String.mk (hexEncode (encryptBytes cfg (utf8Encode s.data)))).data
      = hexEncode (encryptBytes cfg (utf8Encode s.data)) from rfl]
  rw [hexDecode_encode _ hctOk]
  simp only [hctNe, hctMod, ne_eq, not_true_eq_false, or_false, if_false,
    ite_false, if_neg, not_false_eq_true]
  rw [hchunksCt, hcDec, chunks_flatten, pkcs7Unpad_pad]
  show (match utf8Decode (utf8Encode s.data) with
    | none => none
    | some cs => some (String.mk cs)) = some s
  rw [utf8Decode_encode]

theorem goodBlockCipher_xor : GoodBlockCipher xorBlockCipher := by
  intro b hlen hok
  refine ⟨?_, by simp [xorBlockCipher, hlen], ?_⟩
  · show (b.map (fun x => x ^^^ 170)).map (fun x => x ^^^ 170) = b
    rw [List.map_map]
    have hcomp : ((fun x => x ^^^ 170) ∘ fun x : Nat => x ^^^ 170) = id := by
      funext x
      show x ^^^ 170 ^^^ 170 = x
      rw [Nat.xor_assoc, Nat.xor_self, Nat.xor_zero]
    rw [hcomp, List.map_id]
  · intro x hx
    simp only [xorBlockCipher, List.mem_map] at hx
    obtain ⟨y, hy, rfl⟩ := hx
    have hy256 : y < 2 ^ 8 := hok y hy
    exact Nat.xor_lt_two_pow hy256 (by decide)

theorem goodConfig_cfg0 : GoodConfig cfg0 :=
  ⟨goodBlockCipher_xor, by decide, by decide⟩

/-- Witness for C1: the round trip holds at a concrete good configuration and a
concrete string. -/
theorem c1_witness : GoodConfig cfg0 ∧
    decrypt cfg0 (encrypt cfg0 "Once upon a time") = some "Once upon a time" :=
  ⟨goodConfig_cfg0, c1_decrypt_encrypt_round_trip cfg0 goodConfig_cfg0 "Once upon a time"⟩

/-! ### Word count

The `pre('save')` hook of `src/models/section.model.js`: if the `story` path
changed, trim it and count the whitespace-separated words
(`split(/\s+/).filter(word => word.length > 0).length`). -/

/-- The JavaScript whitespace class used by `trim` and `\s`. -/
def isJSWhitespace (c : Char) : Bool :=
  c.toNat == 9 || c.toNat == 10 || c.toNat == 11 || c.toNat == 12 || c.toNat == 13 ||
  c.toNat == 32 || c.toNat == 160 || c.toNat == 5760 ||
  (8192 ≤ c.toNat && c.toNat ≤ 8202) || c.toNat == 8232 || c.toNat == 8233 ||
  c.toNat == 8239 || c.toNat == 8287 || c.toNat == 12288 || c.toNat == 65279

/-- JavaScript `String.prototype.trim`. -/
def jsTrim (cs : List Char) : List Char :=
  ((cs.dropWhile isJSWhitespace).reverse.dropWhile isJSWhitespace).reverse

/-- Worker for `split(/\s+/)`: accumulates the current field (reversed) and
tracks whether the previous character belonged to a separator run. -/
def splitWSAux : List Char → List Char → Bool → List (List Char)
  | [], cur, _ => [cur.reverse]
  | c :: cs, cur, inSep =>
    if isJSWhitespace c then
      if inSep then splitWSAux cs cur true
      else cur.reverse :: splitWSAux cs [] true
    else splitWSAux cs (c :: cur) false

/-- JavaScript `str.split(/\s+/)`: fields between maximal whitespace runs
(leading/trailing runs contribute empty fields, as in JavaScript). -/
def jsSplitWS (cs : List Char) : List (List Char) := splitWSAux cs [] false

/-- The word count computed by the section model's save hook:
`trimmed === '' ? 0 : trimmed.split(/\s+/).filter(w => w.length > 0).length`. -/
def storyWordCount (s : String) : Nat :=
  let t := jsTrim s.data
  if t.isEmpty then 0
  else ((jsSplitWS t).filter (fun w => w.length > 0)).length

/-- Specification-side counter: the number of maximal runs of non-whitespace
characters, computed by a single left-to-right scan. -/
def countRunsAux : List Char → Bool → Nat
  | [], _ => 0
  | c :: cs, prevWS =>
    if isJSWhitespace c then countRunsAux cs true
    else (if prevWS then 1 else 0) + countRunsAux cs false

/-- The number of maximal whitespace-delimited non-empty tokens. -/
def countMaximalTokens (cs : List Char) : Nat := countRunsAux cs true

theorem splitWSAux_count (cs : List Char) :
    ∀ (cur : List Char) (b : Bool), (b = true → cur = []) →
      ((splitWSAux cs cur b).filter (fun w => w.length > 0)).length =
        (if cur.isEmpty then 0 else 1) + countRunsAux cs cur.isEmpty := by
  induction cs with
  | nil =>
    intro cur b _
    cases cur with
    | nil => simp [splitWSAux, countRunsAux]
    | cons x xs => simp [splitWSAux, countRunsAux, List.filter]
  | cons c cs ih =>
    intro cur b hb
    by_cases hws : isJSWhitespace c
    · cases b with
      | true =>
        have hcur : cur = [] := hb rfl
        subst hcur
        simp only [splitWSAux, hws, if_true, ite_true]
        rw [ih [] true (fun _ => rfl)]
        simp [countRunsAux, hws]
      | false =>
        simp only [splitWSAux, hws, if_true, ite_true, Bool.false_eq_true, if_false,
          ite_false]
        rw [List.filter_cons]
        cases cur with
        | nil =>
          rw [if_neg (by simp)]
          rw [ih [] true (fun _ => rfl)]
          simp [countRunsAux, hws]
        | cons x xs =>
          rw [if_pos (by simp)]
          rw [List.length_cons, ih [] true (fun _ => rfl)]
          simp [countRunsAux, hws]
          omega
    · simp only [splitWSAux, hws, Bool.false_eq_true, if_false, ite_false]
      rw [ih (c :: cur) false (by simp)]
      cases cur with
      | nil => simp [countRunsAux, hws]
      | cons x xs => simp [countRunsAux, hws]

/-- Claim C9: the word-count derivation trims the story, yields 0 on an empty
trim, and otherwise counts the maximal whitespace-delimited non-empty tokens;
with the three concrete examples from the specification. -/
theorem c9_word_count_derivation :
    (∀ s : String, storyWordCount s = countMaximalTokens (jsTrim s.data)) ∧
    storyWordCount "" = 0 ∧
    storyWordCount "  word1   word2  word3  " = 3 ∧
    storyWordCount "This is a test story content." = 6 := by
  refine ⟨?_, by decide, by decide, by decide⟩
  intro s
  unfold storyWordCount countMaximalTokens
  cases ht : jsTrim s.data with
  | nil => simp [countRunsAux]
  | cons c t' =>
    simp only [List.isEmpty_cons, Bool.false_eq_true, if_false, ite_false]
    rw [show jsSplitWS (c :: t') = splitWSAux (c :: t') [] false from rfl]
    rw [splitWSAux_count (c :: t') [] false (by simp)]
    simp

/-! ### Data model

`Book` from `src/models/book.model.js` and `Section` from
`src/models/section.model.js`, with object ids, references and timestamps
modelled as naturals. -/

structure Book where
  id : Nat
  user : Nat
  title : String
  description : String
  isPublished : Bool
deriving DecidableEq

structure Section where
  id : Nat
  book : Nat
  title : String
  story : String
  order : Nat
  wordCount : Nat
  createdAt : Nat
deriving DecidableEq

/-- The document store: all books and all sections. -/
structure DB where
  books : List Book
  sections : List Section
deriving DecidableEq

/-- An HTTP-level result: success with status and payload, or failure with
status and message. -/
inductive ApiResult (α : Type) where
  | ok : Nat → α → ApiResult α
  | err : Nat → String → ApiResult α
deriving DecidableEq

/-- The section model's save hook: recompute `wordCount` from the `story`
field as stored on the document (the hook fires on every save of a document
whose `story` path changed, which holds for all newly created sections). -/
def saveSection (s : Section) : Section :=
  { s with wordCount := storyWordCount s.story }

/-- `Book.findOne({ _id: bookId, user: req.user._id })`: the ownership-scoped
book lookup repeated by every controller. -/
def findOwnedBook (db : DB) (uid bid : Nat) : Option Book :=
  db.books.find? (fun b => b.id == bid && b.user == uid)

/-- `getBook` from `src/middleware/auth.middleware.js` (book controller). -/
def getBook (db : DB) (uid bid : Nat) : ApiResult Book :=
  match findOwnedBook db uid bid with
  | none => .err 404 "Book not found"
  | some b => .ok 200 b

/-- `updateBook`: ownership-scoped lookup, then update only the supplied
fields and save. -/
def updateBook (db : DB) (uid bid : Nat) (title? description? : Option String)
    (isPublished? : Option Bool) : ApiResult Book × DB :=
  match findOwnedBook db uid bid with
  | none => (.err 404 "Book not found", db)
  | some b =>
    let b' : Book :=
      { b with
        title := title?.getD b.title
        description := description?.getD b.description
        isPublished := isPublished?.getD b.isPublished }
    (.ok 200 b', ⟨db.books.map (fun x => if x.id == b.id then b' else x), db.sections⟩)

/-- `deleteBook`: ownership-scoped lookup, then delete all the book's sections
and finally the book itself (two steps). -/
def deleteBook (db : DB) (uid bid : Nat) : ApiResult Unit × DB :=
  match findOwnedBook db uid bid with
  | none => (.err 404 "Book not found", db)
  | some _ =>
    let db1 : DB := ⟨db.books, db.sections.filter (fun s => !(s.book == bid))⟩
    let db2 : DB := ⟨db1.books.filter (fun b => !(b.id == bid)), db1.sections⟩
    (.ok 200 (), db2)

/-- Sort key used by `getBookSections`: `sort({ order: 1, createdAt: 1 })`. -/
def sectionLE (a b : Section) : Bool :=
  a.order < b.order || (a.order == b.order && a.createdAt ≤ b.createdAt)

/-- Insertion into a list sorted by `sectionLE`. -/
def insertSorted (x : Section) : List Section → List Section
  | [] => [x]
  | y :: ys => if sectionLE x y then x :: y :: ys else y :: insertSorted x ys

/-- Sort a section list by `(order asc, createdAt asc)`. -/
def sortSections (l : List Section) : List Section := l.foldr insertSorted []

/-- Per-item decryption with failure isolation: a section whose stored story
fails to decrypt keeps its place with the placeholder story. -/
def decryptStoryOrPlaceholder (cfg : CipherConfig) (s : Section) : Section :=
  { s with
    story :=
      match decrypt cfg s.story with
      | some pt => pt
      | none => "[Encryption Error]" }

/-- `getBookSections`: ownership-scoped lookup, fetch the book's sections
sorted by `(order, createdAt)`, and decrypt each story independently. -/
def getBookSections (cfg : CipherConfig) (db : DB) (uid bid : Nat) :
    ApiResult (Book × List Section) :=
  match findOwnedBook db uid bid with
  | none => .err 404 "Book not found"
  | some book =>
    let secs := sortSections (db.sections.filter (fun s => s.book == bid))
    .ok 200 (book, secs.map (decryptStoryOrPlaceholder cfg))

/-- Largest element of a list of naturals, `none` on the empty list: the
`order` of the document returned by `findOne({book}).sort({order: -1})`. -/
def maxOrder : List Nat → Option Nat
  | [] => none
  | x :: xs =>
    match maxOrder xs with
    | none => some x
    | some m => some (max x m)

/-- The next order number assigned by `addSection`: one more than the order of
the section returned by `findOne({book: bookId}).sort({order: -1})`, or 1 when
the book has no sections. -/
def nextOrder (db : DB) (bid : Nat) : Nat :=
  match maxOrder ((db.sections.filter (fun s => s.book == bid)).map (fun s => s.order)) with
  | none => 1
  | some m => m + 1

/-- `addSection`: ownership-scoped lookup, next order number from the highest
existing order (1 for an empty book), encrypt the story, save the section (the
save hook recomputes the word count from the stored, encrypted story), and
respond with the section carrying the original plaintext story. -/
def addSection (cfg : CipherConfig) (db : DB) (uid bid : Nat)
    (title story : String) (newId now : Nat) : ApiResult Section × DB :=
  match findOwnedBook db uid bid with
  | none => (.err 404 "Book not found", db)
  | some _ =>
    let ord := nextOrder db bid
    let enc := encrypt cfg story
    let sec := saveSection ⟨newId, bid, title, ⟨jsTrim enc.data⟩, ord, 0, now⟩
    let resp : Section := { sec with story := story }
    (.ok 201 resp, ⟨db.books, db.sections ++ [sec]⟩)

/-! ### Lemmas about the operations -/

theorem maxOrder_eq_none_iff (l : List Nat) : maxOrder l = none ↔ l = [] := by
  cases l with
  | nil => simp [maxOrder]
  | cons x xs =>
    simp only [maxOrder]
    cases maxOrder xs <;> simp

theorem maxOrder_mem (l : List Nat) : ∀ m, maxOrder l = some m → m ∈ l := by
  induction l with
  | nil => intro m h; simp [maxOrder] at h
  | cons x xs ih =>
    intro m h
    simp only [maxOrder] at h
    cases hx : maxOrder xs with
    | none =>
      rw [hx] at h
      simp only [Option.some.injEq] at h
      subst h
      exact List.mem_cons_self x xs
    | some k =>
      rw [hx] at h
      simp only [Option.some.injEq] at h
      subst h
      rcases max_choice x k with hm | hm
      · rw [hm]; exact List.mem_cons_self x xs
      · rw [hm]; exact List.mem_cons_of_mem x (ih k hx)

theorem maxOrder_ge (l : List Nat) : ∀ m, maxOrder l = some m → ∀ x ∈ l, x ≤ m := by
  induction l with
  | nil => intro m _ x hx; simp at hx
  | cons y ys ih =>
    intro m h x hx
    simp only [maxOrder] at h
    cases hy : maxOrder ys with
    | none =>
      rw [hy] at h
      simp only [Option.some.injEq] at h
      subst h
      have : ys = [] := (maxOrder_eq_none_iff ys).mp hy
      subst this
      simp at hx
      subst hx
      exact le_rfl
    | some k =>
      rw [hy] at h
      simp only [Option.some.injEq] at h
      subst h
      rcases List.mem_cons.mp hx with rfl | hx
      · exact le_max_left x k
      · exact le_trans (ih k hy x hx) (le_max_right y k)

theorem addSection_eq (cfg : CipherConfig) (db : DB) (uid bid : Nat)
    (title story : String) (newId now : Nat) (b : Book)
    (hfind : findOwnedBook db uid bid = some b) :
    addSection cfg db uid bid title story newId now =
      (.ok 201 { saveSection ⟨newId, bid, title, ⟨jsTrim (encrypt cfg story).data⟩,
          nextOrder db bid, 0, now⟩ with story := story },
       ⟨db.books, db.sections ++ [saveSection ⟨newId, bid, title,
          ⟨jsTrim (encrypt cfg story).data⟩, nextOrder db bid, 0, now⟩]⟩) := by
  unfold addSection
  rw [hfind]

theorem saveSection_wordCount (s : Section) :
    (saveSection s).wordCount = storyWordCount s.story := rfl

theorem length_insertSorted (x : Section) :
    ∀ l : List Section, (insertSorted x l).length = l.length + 1 := by
  intro l
  induction l with
  | nil => rfl
  | cons y ys ih =>
    simp only [insertSorted]
    by_cases h : sectionLE x y
    · simp [h]
    · simp [h, ih]

theorem length_sortSections (l : List Section) : (sortSections l).length = l.length := by
  induction l with
  | nil => rfl
  | cons x xs ih =>
    show (insertSorted x (sortSections xs)).length = xs.length + 1
    rw [length_insertSorted, ih]

theorem hexDigit_not_ws : ∀ n < 16, isJSWhitespace (hexDigit n) = false := by decide

theorem hexEncode_not_ws (bs : List Nat) (h : BytesOk bs) :
    ∀ c ∈ hexEncode bs, isJSWhitespace c = false := by
  induction bs with
  | nil => intro c hc; simp [hexEncode] at hc
  | cons b t ih =>
    intro c hc
    have hb : b < 256 := h b (List.mem_cons_self b t)
    simp only [hexEncode, List.mem_cons] at hc
    rcases hc with rfl | rfl | hc
    · exact hexDigit_not_ws _ (by omega)
    · exact hexDigit_not_ws _ (by omega)
    · exact ih (fun x hx => h x (List.mem_cons_of_mem b hx)) c hc

theorem dropWhile_eq_self_of_not {α : Type} (p : α → Bool) (l : List α)
    (h : ∀ c ∈ l, p c = false) : l.dropWhile p = l := by
  cases l with
  | nil => rfl
  | cons x xs =>
    rw [List.dropWhile_cons, h x (List.mem_cons_self x xs)]
    simp

theorem jsTrim_eq_self (cs : List Char) (h : ∀ c ∈ cs, isJSWhitespace c = false) :
    jsTrim cs = cs := by
  unfold jsTrim
  rw [dropWhile_eq_self_of_not _ _ h,
    dropWhile_eq_self_of_not _ _ (fun c hc => h c (List.mem_reverse.mp hc)),
    List.reverse_reverse]

theorem countRunsAux_nonws_false (cs : List Char)
    (h : ∀ c ∈ cs, isJSWhitespace c = false) : countRunsAux cs false = 0 := by
  induction cs with
  | nil => rfl
  | cons c t ih =>
    simp only [countRunsAux, h c (List.mem_cons_self c t)]
    simp only [Bool.false_eq_true, if_false, ite_false]
    rw [ih (fun x hx => h x (List.mem_cons_of_mem c hx))]

theorem storyWordCount_nonws (cs : List Char) (hne : cs ≠ [])
    (h : ∀ c ∈ cs, isJSWhitespace c = false) : storyWordCount ⟨cs⟩ = 1 := by
  unfold storyWordCount
  rw [show (String.mk cs).data = cs from rfl, jsTrim_eq_self cs h]
  cases cs with
  | nil => exact absurd rfl hne
  | cons c t =>
    simp only [List.isEmpty_cons, Bool.false_eq_true, if_false, ite_false]
    rw [show jsSplitWS (c :: t) = splitWSAux (c :: t) [] false from rfl,
      splitWSAux_count (c :: t) [] false (by simp)]
    simp only [List.isEmpty_nil, if_true, ite_true, Nat.zero_add]
    simp only [countRunsAux, h c (List.mem_cons_self c t), Bool.false_eq_true, if_false,
      ite_false, if_true, ite_true]
    rw [countRunsAux_nonws_false t (fun x hx => h x (List.mem_cons_of_mem c hx))]

theorem encryptBytes_props (cfg : CipherConfig) (hcfg : GoodConfig cfg)
    (bs : List Nat) (hbs : BytesOk bs) :
    BytesOk (encryptBytes cfg bs) ∧ encryptBytes cfg bs ≠ [] := by
  obtain ⟨hbc, hivLen, hivOk⟩ := hcfg
  have hpadOk : BytesOk (pkcs7Pad bs) := bytesOk_pkcs7Pad _ hbs
  have hpadMod := pkcs7Pad_length_mod bs
  have hpadPos := pkcs7Pad_length_pos bs
  have hblocks16 := chunks_block_length _ hpadMod
  have hblocksOk : ∀ blk ∈ chunks (pkcs7Pad bs), BytesOk blk := by
    intro blk hblk x hx
    exact hpadOk x (chunksF_mem_mem _ _ blk hblk x hx)
  obtain ⟨hcOk, hcLen, _⟩ := cbcEncBlocks_ok cfg.bc hbc (chunks (pkcs7Pad bs)) cfg.iv
    (fun b hb => ⟨hblocks16 b hb, hblocksOk b hb⟩) hivLen hivOk
  have hchunksNe : chunks (pkcs7Pad bs) ≠ [] := by
    intro h0
    have hfl := chunks_flatten (pkcs7Pad bs)
    rw [h0] at hfl
    simp only [List.flatten_nil] at hfl
    rw [← hfl] at hpadPos
    simp at hpadPos
  refine ⟨?_, ?_⟩
  · unfold encryptBytes
    exact bytesOk_flatten _ (fun b hb => (hcOk b hb).2)
  · intro h0
    have hlen : (encryptBytes cfg bs).length =
        16 * (cbcEncBlocks cfg.bc.enc cfg.iv (chunks (pkcs7Pad bs))).length := by
      unfold encryptBytes
      exact flatten_length_blocks _ (fun b hb => (hcOk b hb).1)
    rw [h0] at hlen
    have := List.length_pos.mpr hchunksNe
    simp only [List.length_nil] at hlen
    omega

theorem hexEncode_ne_nil (bs : List Nat) (h : bs ≠ []) : hexEncode bs ≠ [] := by
  cases bs with
  | nil => exact absurd rfl h
  | cons b t => simp [hexEncode]

/-- The ciphertext produced by `encrypt` under a good configuration is a
nonempty string with no whitespace characters, so the save hook always counts
exactly one word in it. -/
theorem storyWordCount_encrypt (cfg : CipherConfig) (hcfg : GoodConfig cfg)
    (story : String) : storyWordCount ⟨jsTrim (encrypt cfg story).data⟩ = 1 := by
  obtain ⟨hok, hne⟩ := encryptBytes_props cfg hcfg (utf8Encode story.data)
    (bytesOk_utf8Encode story.data)
  have hdata : (encrypt cfg story).data = hexEncode (encryptBytes cfg (utf8Encode story.data)) :=
    rfl
  have hnows : ∀ c ∈ (encrypt cfg story).data, isJSWhitespace c = false := by
    rw [hdata]
    exact hexEncode_not_ws _ hok
  rw [jsTrim_eq_self _ hnows]
  refine storyWordCount_nonws _ ?_ hnows
  rw [hdata]
  exact hexEncode_ne_nil _ hne

/-! ### Concrete fixtures -/

def dbEmptyBook : DB := ⟨[⟨1, 1, "My Book", "Test", false⟩], []⟩

def dbOneSection : DB := ⟨[⟨1, 1, "My Book", "Test", false⟩], [⟨10, 1, "Ch1", "x", 1, 1, 0⟩]⟩

def dbOtherOwner : DB := ⟨[⟨1, 2, "Other Book", "", false⟩], []⟩

def dbCorrupt : DB :=
  ⟨[⟨1, 1, "B", "", false⟩],
   [⟨10, 1, "s1", encrypt cfg0 "alpha", 1, 1, 0⟩,
    ⟨11, 1, "s2", "zz", 2, 1, 1⟩,
    ⟨12, 1, "s3", encrypt cfg0 "gamma", 3, 1, 2⟩]⟩

def foxStory : String := "Once upon a time there was a fox."

/-- Stories of a listing result, in order. -/
def listedStories (r : ApiResult (Book × List Section)) : List String :=
  match r with
  | .ok _ p => p.2.map (fun s => s.story)
  | .err _ _ => []

/-! ### Claim C2 -/

/-- Claim C2: every book operation (read, update, delete, list-sections,
add-section) requested by a user who does not own the book — whether the book
does not exist or belongs to another user — returns the identical
`404 "Book not found"` response, never a 403. -/
theorem c2_ownership_isolation (cfg : CipherConfig) (db : DB) (uid bid : Nat)
    (title? description? : Option String) (isPublished? : Option Bool)
    (title story : String) (newId now : Nat)
    (hno : ∀ b ∈ db.books, b.id = bid → b.user ≠ uid) :
    getBook db uid bid = .err 404 "Book not found" ∧
    (updateBook db uid bid title? description? isPublished?).1 = .err 404 "Book not found" ∧
    (deleteBook db uid bid).1 = .err 404 "Book not found" ∧
    getBookSections cfg db uid bid = .err 404 "Book not found" ∧
    (addSection cfg db uid bid title story newId now).1 = .err 404 "Book not found" := by
  have hfind : findOwnedBook db uid bid = none := by
    unfold findOwnedBook
    rw [List.find?_eq_none]
    intro b hb h
    rw [Bool.and_eq_true, beq_iff_eq, beq_iff_eq] at h
    exact hno b hb h.1 h.2
  refine ⟨?_, ?_, ?_, ?_, ?_⟩
  · unfold getBook; rw [hfind]
  · unfold updateBook; rw [hfind]
  · unfold deleteBook; rw [hfind]
  · unfold getBookSections; rw [hfind]
  · unfold addSection; rw [hfind]

/-- Witness for C2: a book owned by user 2 is invisible to user 1, and the
response equals the one for a nonexistent book id. -/
theorem c2_witness :
    (∀ b ∈ dbOtherOwner.books, b.id = 1 → b.user ≠ 1) ∧
    (∀ b ∈ dbOtherOwner.books, b.id = 99 → b.user ≠ 1) ∧
    getBook dbOtherOwner 1 1 = .err 404 "Book not found" ∧
    getBook dbOtherOwner 1 99 = .err 404 "Book not found" :=
  ⟨by decide, by decide,
   (c2_ownership_isolation cfg0 dbOtherOwner 1 1 none none none "t" "s" 5 0 (by decide)).1,
   (c2_ownership_isolation cfg0 dbOtherOwner 1 99 none none none "t" "s" 5 0 (by decide)).1⟩

/-! ### Claim C7 -/

/-- Claim C7: on an owned book, the created section's order is one more than
the maximum existing order for that book, or 1 when the book has no sections;
in particular new orders strictly dominate all existing ones. -/
theorem c7_order_assignment (cfg : CipherConfig) (db : DB) (uid bid : Nat)
    (title story : String) (newId now : Nat)
    (hb : (findOwnedBook db uid bid).isSome) :
    (∃ sec db', addSection cfg db uid bid title story newId now = (.ok 201 sec, db') ∧
      sec.order = nextOrder db bid) ∧
    (db.sections.filter (fun x => x.book == bid) = [] → nextOrder db bid = 1) ∧
    (∀ s ∈ db.sections.filter (fun x => x.book == bid), s.order < nextOrder db bid) ∧
    (db.sections.filter (fun x => x.book == bid) ≠ [] →
      ∃ s ∈ db.sections.filter (fun x => x.book == bid), nextOrder db bid = s.order + 1) := by
  obtain ⟨b, hfind⟩ := Option.isSome_iff_exists.mp hb
  refine ⟨⟨_, _, addSection_eq cfg db uid bid title story newId now b hfind, rfl⟩, ?_, ?_, ?_⟩
  · intro hnil
    unfold nextOrder
    rw [hnil]
    rfl
  · intro s hs
    cases hmax : maxOrder ((db.sections.filter (fun x => x.book == bid)).map
        (fun x => x.order)) with
    | none =>
      exfalso
      have hnil := (maxOrder_eq_none_iff _).mp hmax
      have hmem : s.order ∈ (db.sections.filter (fun x => x.book == bid)).map
          (fun x => x.order) := List.mem_map_of_mem _ hs
      rw [hnil] at hmem
      simp at hmem
    | some m =>
      have heq : nextOrder db bid = m + 1 := by unfold nextOrder; rw [hmax]
      have hle := maxOrder_ge _ m hmax s.order (List.mem_map_of_mem _ hs)
      omega
  · intro hne
    cases hmax : maxOrder ((db.sections.filter (fun x => x.book == bid)).map
        (fun x => x.order)) with
    | none =>
      exfalso
      have hnil := (maxOrder_eq_none_iff _).mp hmax
      rcases hfil : db.sections.filter (fun x => x.book == bid) with _ | ⟨a, l⟩
      · exact hne hfil
      · rw [hfil] at hnil; simp at hnil
    | some m =>
      have hmem := maxOrder_mem _ m hmax
      rw [List.mem_map] at hmem
      obtain ⟨s, hs, hord⟩ := hmem
      refine ⟨s, hs, ?_⟩
      unfold nextOrder
      rw [hmax, hord]

/-- Witness for C7: the first section of an empty book gets order 1; with an
existing section of order 1 the next gets order 2. -/
theorem c7_witness :
    (findOwnedBook dbEmptyBook 1 1).isSome ∧
    nextOrder dbEmptyBook 1 = 1 ∧
    nextOrder dbOneSection 1 = 2 ∧
    (∃ sec db', addSection cfg0 dbEmptyBook 1 1 "Ch1" "Hello world" 10 0 =
        (.ok 201 sec, db') ∧ sec.order = nextOrder dbEmptyBook 1) :=
  ⟨by decide, by decide, by decide,
   (c7_order_assignment cfg0 dbEmptyBook 1 1 "Ch1" "Hello world" 10 0 (by decide)).1⟩

/-! ### Claim C8 -/

/-- Claim C8: listing the sections of an owned book succeeds and decrypts each
stored story independently: a section whose story fails to decrypt appears
with the placeholder `"[Encryption Error]"`, every other section appears with
its decrypted story, and no section is dropped. -/
theorem c8_decrypt_failure_isolation (cfg : CipherConfig) (db : DB) (uid bid : Nat)
    (book : Book) (hfind : findOwnedBook db uid bid = some book) :
    ∃ out : List Section,
      getBookSections cfg db uid bid = .ok 200 (book, out) ∧
      out.length = (db.sections.filter (fun x => x.book == bid)).length ∧
      ∀ sec ∈ out, ∃ src ∈ sortSections (db.sections.filter (fun x => x.book == bid)),
        sec = decryptStoryOrPlaceholder cfg src ∧
        ((decrypt cfg src.story = none ∧ sec.story = "[Encryption Error]") ∨
          (∃ pt, decrypt cfg src.story = some pt ∧ sec.story = pt)) := by
  refine ⟨(sortSections (db.sections.filter (fun x => x.book == bid))).map
      (decryptStoryOrPlaceholder cfg), ?_, ?_, ?_⟩
  · unfold getBookSections
    rw [hfind]
  · rw [List.length_map, length_sortSections]
  · intro sec hsec
    rw [List.mem_map] at hsec
    obtain ⟨src, hsrc, rfl⟩ := hsec
    refine ⟨src, hsrc, rfl, ?_⟩
    cases hd : decrypt cfg src.story with
    | none =>
      left
      refine ⟨rfl, ?_⟩
      show (decryptStoryOrPlaceholder cfg src).story = "[Encryption Error]"
      unfold decryptStoryOrPlaceholder
      rw [hd]
    | some pt =>
      right
      refine ⟨pt, rfl, ?_⟩
      show (decryptStoryOrPlaceholder cfg src).story = pt
      unfold decryptStoryOrPlaceholder
      rw [hd]

/-- Witness for C8: a book with 3 stored sections of which exactly the middle
one is corrupt lists all 3, the corrupt one as the placeholder, the other two
correctly decrypted. -/
theorem c8_witness :
    findOwnedBook dbCorrupt 1 1 = some ⟨1, 1, "B", "", false⟩ ∧
    listedStories (getBookSections cfg0 dbCorrupt 1 1) =
      ["alpha", "[Encryption Error]", "gamma"] ∧
    (∃ out : List Section,
      getBookSections cfg0 dbCorrupt 1 1 = .ok 200 (⟨1, 1, "B", "", false⟩, out) ∧
      out.length = (dbCorrupt.sections.filter (fun x => x.book == 1)).length ∧
      ∀ sec ∈ out, ∃ src ∈ sortSections (dbCorrupt.sections.filter (fun x => x.book == 1)),
        sec = decryptStoryOrPlaceholder cfg0 src ∧
        ((decrypt cfg0 src.story = none ∧ sec.story = "[Encryption Error]") ∨
          (∃ pt, decrypt cfg0 src.story = some pt ∧ sec.story = pt))) :=
  ⟨by decide, by decide,
   c8_decrypt_failure_isolation cfg0 dbCorrupt 1 1 ⟨1, 1, "B", "", false⟩ (by decide)⟩

/-! ### Claim C3 -/

set_option maxHeartbeats 2000000 in
/-- Counterexample to claim C3: creating a section with the story
`"Once upon a time there was a fox."` on an owned book persists wordCount 1,
not 7 — the save hook fires after encryption, so it counts the single hex
token of the ciphertext; even the plaintext derivation would give 8, not 7. -/
theorem c3_counterexample :
    ((addSection cfg0 dbEmptyBook 1 1 "Ch1" foxStory 10 0).2.sections.map
      (fun s => s.wordCount)) = [1] ∧
    storyWordCount foxStory = 8 := by
  constructor
  · decide
  · decide

/-- Claim C3 (amended): the persisted word count of a created section is
derived from the stored ciphertext, not the plaintext: since the hex
ciphertext is a nonempty single token, every created section is stored with
wordCount 1 (and the response echoes it). -/
theorem c3_wordcount_from_ciphertext (cfg : CipherConfig) (hcfg : GoodConfig cfg)
    (db : DB) (uid bid : Nat) (title story : String) (newId now : Nat)
    (hb : (findOwnedBook db uid bid).isSome) :
    ∃ resp db', addSection cfg db uid bid title story newId now = (.ok 201 resp, db') ∧
      db'.sections.map (fun s => s.wordCount) =
        db.sections.map (fun s => s.wordCount) ++ [1] ∧
      resp.wordCount = 1 := by
  obtain ⟨b, hfind⟩ := Option.isSome_iff_exists.mp hb
  refine ⟨_, _, addSection_eq cfg db uid bid title story newId now b hfind, ?_, ?_⟩
  · rw [List.map_append]
    congr 1
    simp only [List.map_cons, List.map_nil, saveSection_wordCount]
    rw [storyWordCount_encrypt cfg hcfg story]
  · simp only [saveSection_wordCount]
    exact storyWordCount_encrypt cfg hcfg story

/-- Witness for the amended C3: concrete creation of the fox-story section. -/
theorem c3_witness :
    GoodConfig cfg0 ∧ (findOwnedBook dbEmptyBook 1 1).isSome ∧
    (∃ resp db', addSection cfg0 dbEmptyBook 1 1 "Ch1" foxStory 10 0 = (.ok 201 resp, db') ∧
      db'.sections.map (fun s => s.wordCount) =
        dbEmptyBook.sections.map (fun s => s.wordCount) ++ [1] ∧
      resp.wordCount = 1) :=
  ⟨goodConfig_cfg0, by decide,
   c3_wordcount_from_ciphertext cfg0 goodConfig_cfg0 dbEmptyBook 1 1 "Ch1" foxStory 10 0
     (by decide)⟩

/-! ### Authentication gate

`JWTService.extractTokenFromHeader` from `src/services/jwt.service.js` and
`authenticateToken` from `src/middleware/auth.middleware.js`. Token
verification and the user lookup are collaborator parameters. -/

structure AuthUser where
  id : Nat
  email : String
deriving DecidableEq

/-- Outcome of `User.findById`: a user, a null result, or a rejected promise
(transport/storage fault). -/
inductive LookupResult where
  | found : AuthUser → LookupResult
  | notFound : LookupResult
  | storeFault : LookupResult
deriving DecidableEq

/-- Outcome of the middleware: call `next()` with the user attached, or answer
with a status and message. -/
inductive AuthOutcome where
  | proceed : AuthUser → AuthOutcome
  | reject : Nat → String → AuthOutcome
deriving DecidableEq

/-- JavaScript `startsWith`. -/
def strStartsWith (s pat : String) : Bool :=
  s.data.take pat.data.length == pat.data

/-- JavaScript `substring(n)`. -/
def strDrop (s : String) (n : Nat) : String := ⟨s.data.drop n⟩

/-- `JWTService.extractTokenFromHeader(authHeader)`: throws unless the header
is truthy and starts with the literal `"Bearer "` (the bare 7-character value
`"Bearer "` itself passes `startsWith`); returns `authHeader.substring(7)`. -/
def extractTokenFromHeader (header? : Option String) : Except String String :=
  match header? with
  | none => .error "Authorization header must start with Bearer"
  | some h =>
    if h = "" then .error "Authorization header must start with Bearer"
    else if strStartsWith h "Bearer " then .ok (strDrop h 7)
    else .error "Authorization header must start with Bearer"

/-- `authenticateToken(req, res, next)`: missing or empty header answers
`401 Access token required`; every exception thrown inside the `try` block —
extraction, verification, or a rejected lookup — lands in the single `catch`,
which answers `401 Invalid or expired token`; a null user answers
`401 User not found`; otherwise the user is attached and the request
proceeds. -/
def authenticateToken (verify : String → Except String Nat)
    (findById : Nat → LookupResult) (authHeader : Option String) : AuthOutcome :=
  match authHeader with
  | none => .reject 401 "Access token required"
  | some h =>
    if h = "" then .reject 401 "Access token required"
    else
      match extractTokenFromHeader (some h) with
      | .error _ => .reject 401 "Invalid or expired token"
      | .ok tok =>
        match verify tok with
        | .error _ => .reject 401 "Invalid or expired token"
        | .ok uid =>
          match findById uid with
          | .storeFault => .reject 401 "Invalid or expired token"
          | .notFound => .reject 401 "User not found"
          | .found u => .proceed u

/-- A concrete verifier for witnesses: accepts exactly the token "tok123" as
subject 7. -/
def verifyStub : String → Except String Nat :=
  fun t => if t = "tok123" then .ok 7 else .error "Invalid or expired token"

def lookupFault : Nat → LookupResult := fun _ => .storeFault

def lookupMissing : Nat → LookupResult := fun _ => .notFound

/-! ### Claim C4 -/

/-- Claim C4 fails on the code: the middleware has no 500 branch at all. When
extraction and verification succeed but the identity lookup faults, the
rejected promise lands in the catch-all, which answers
`401 Invalid or expired token` — never `500 Authentication failed`. -/
theorem c4_store_fault_behavior (verify : String → Except String Nat)
    (findById : Nat → LookupResult) (h tok : String) (uid : Nat)
    (hne : ¬ h = "")
    (hh : extractTokenFromHeader (some h) = .ok tok)
    (hv : verify tok = .ok uid)
    (hl : findById uid = .storeFault) :
    authenticateToken verify findById (some h) = .reject 401 "Invalid or expired token" ∧
    authenticateToken verify findById (some h) ≠ .reject 500 "Authentication failed" := by
  have heq : authenticateToken verify findById (some h) =
      .reject 401 "Invalid or expired token" := by
    simp only [authenticateToken, if_neg hne, hh, hv, hl]
  exact ⟨heq, by rw [heq]; decide⟩

/-- Witness for C4: concrete verifier and faulting store. -/
theorem c4_witness :
    ¬ "Bearer tok123" = "" ∧
    extractTokenFromHeader (some "Bearer tok123") = .ok "tok123" ∧
    verifyStub "tok123" = .ok 7 ∧
    lookupFault 7 = .storeFault ∧
    (authenticateToken verifyStub lookupFault (some "Bearer tok123") =
        .reject 401 "Invalid or expired token" ∧
      authenticateToken verifyStub lookupFault (some "Bearer tok123") ≠
        .reject 500 "Authentication failed") :=
  ⟨by decide, rfl, rfl, rfl,
   c4_store_fault_behavior verifyStub lookupFault "Bearer tok123" "tok123" 7
     (by decide) rfl rfl rfl⟩

/-! ### Claim C5 -/

/-- Claim C5 fails on the code: a verified token whose subject resolves to no
user is answered `401 User not found`, not `401 Invalid or expired token`. -/
theorem c5_user_not_found_behavior (verify : String → Except String Nat)
    (findById : Nat → LookupResult) (h tok : String) (uid : Nat)
    (hne : ¬ h = "")
    (hh : extractTokenFromHeader (some h) = .ok tok)
    (hv : verify tok = .ok uid)
    (hl : findById uid = .notFound) :
    authenticateToken verify findById (some h) = .reject 401 "User not found" ∧
    authenticateToken verify findById (some h) ≠
      .reject 401 "Invalid or expired token" := by
  have heq : authenticateToken verify findById (some h) =
      .reject 401 "User not found" := by
    simp only [authenticateToken, if_neg hne, hh, hv, hl]
  exact ⟨heq, by rw [heq]; decide⟩

/-- Witness for C5: concrete verifier and a store with no users. -/
theorem c5_witness :
    ¬ "Bearer tok123" = "" ∧
    extractTokenFromHeader (some "Bearer tok123") = .ok "tok123" ∧
    verifyStub "tok123" = .ok 7 ∧
    lookupMissing 7 = .notFound ∧
    (authenticateToken verifyStub lookupMissing (some "Bearer tok123") =
        .reject 401 "User not found" ∧
      authenticateToken verifyStub lookupMissing (some "Bearer tok123") ≠
        .reject 401 "Invalid or expired token") :=
  ⟨by decide, rfl, rfl, rfl,
   c5_user_not_found_behavior verifyStub lookupMissing "Bearer tok123" "tok123" 7
     (by decide) rfl rfl rfl⟩

/-! ### Claim C6 -/

/-- Counterexample to claim C6: for the header exactly `"Bearer "`,
`startsWith("Bearer ")` holds, so extraction does not fail — it returns the
empty token — and the gate answers `401 Invalid or expired token` (the empty
token fails verification inside the try block), not
`401 Access token required`. -/
theorem c6_counterexample :
    extractTokenFromHeader (some "Bearer ") = .ok "" ∧
    authenticateToken verifyStub lookupMissing (some "Bearer ") =
      .reject 401 "Invalid or expired token" ∧
    AuthOutcome.reject 401 "Invalid or expired token" ≠
      .reject 401 "Access token required" := by
  refine ⟨rfl, rfl, by decide⟩

/-- Claim C6 (amended): for the header exactly `"Bearer "`, extraction
succeeds with the empty remainder, and whenever verification rejects the empty
token the gate answers `401 Invalid or expired token`. -/
theorem c6_bare_bearer_header (verify : String → Except String Nat)
    (findById : Nat → LookupResult) (msg : String)
    (hv : verify "" = .error msg) :
    extractTokenFromHeader (some "Bearer ") = .ok "" ∧
    authenticateToken verify findById (some "Bearer ") =
      .reject 401 "Invalid or expired token" := by
  have hex : extractTokenFromHeader (some "Bearer ") = .ok "" := rfl
  refine ⟨hex, ?_⟩
  simp only [authenticateToken, if_neg (by decide : ¬ "Bearer " = ""), hex, hv]

/-- Witness for the amended C6. -/
theorem c6_witness :
    verifyStub "" = .error "Invalid or expired token" ∧
    (extractTokenFromHeader (some "Bearer ") = .ok "" ∧
      authenticateToken verifyStub lookupMissing (some "Bearer ") =
        .reject 401 "Invalid or expired token") :=
  ⟨rfl,
   c6_bare_bearer_header verifyStub lookupMissing "Invalid or expired token" rfl⟩

/-! ### Claim C10 -/

/-- JavaScript string length: UTF-16 code units (astral code points count
as two units). -/
def jsLength (s : String) : Nat :=
  s.data.foldl (fun acc c => acc + (if c.toNat < 65536 then 1 else 2)) 0

/-- UTF-8 byte length of a string. -/
def utf8ByteLength (s : String) : Nat := (utf8Encode s.data).length

/-- The `EncryptionService` constructor validation: the key must be truthy
with `length === 32` and the IV truthy with `length === 16`, where `length`
counts JavaScript string units, not bytes. -/
def cipherConstruct (key? iv? : Option String) : Except String Unit :=
  if key?.getD "" = "" ∨ jsLength (key?.getD "") ≠ 32 then
    .error "AES_SECRET_KEY must be exactly 32 characters long"
  else if iv?.getD "" = "" ∨ jsLength (iv?.getD "") ≠ 16 then
    .error "AES_IV must be exactly 16 characters long"
  else .ok ()

/-- A 32-character key that is 33 UTF-8 bytes long. -/
def keyNonAscii : String := "éaaaaaaaaaaaaaaaaaaaaaaaaaaaaaaa"

/-- Counterexample to claim C10: the constructor checks string length, not
byte length — a 32-character key containing a two-byte character (33 bytes)
is accepted. -/
theorem c10_counterexample :
    cipherConstruct (some keyNonAscii) (some "0123456789abcdef") = .ok () ∧
    utf8ByteLength keyNonAscii = 33 ∧
    jsLength keyNonAscii = 32 := by
  refine ⟨rfl, by decide, by decide⟩

/-- Claim C10 (amended): construction succeeds exactly when the key is
present with JavaScript length 32 and the IV is present with JavaScript
length 16 (characters, not bytes). -/
theorem c10_construction_validation (key? iv? : Option String) :
    cipherConstruct key? iv? = .ok () ↔
      ((∃ k, key? = some k ∧ jsLength k = 32) ∧
       (∃ j, iv? = some j ∧ jsLength j = 16)) := by
  unfold cipherConstruct
  by_cases h1 : key?.getD "" = "" ∨ jsLength (key?.getD "") ≠ 32
  · rw [if_pos h1]
    constructor
    · intro h
      exact absurd h (by simp)
    · rintro ⟨⟨k, hk, hkl⟩, _⟩
      exfalso
      rw [hk] at h1
      simp only [Option.getD_some] at h1
      rcases h1 with h1 | h1
      · rw [h1] at hkl
        exact absurd hkl (by decide)
      · exact h1 hkl
  · rw [if_neg h1]
    push_neg at h1
    by_cases h2 : iv?.getD "" = "" ∨ jsLength (iv?.getD "") ≠ 16
    · rw [if_pos h2]
      constructor
      · intro h
        exact absurd h (by simp)
      · rintro ⟨_, ⟨j, hj, hjl⟩⟩
        exfalso
        rw [hj] at h2
        simp only [Option.getD_some] at h2
        rcases h2 with h2 | h2
        · rw [h2] at hjl
          exact absurd hjl (by decide)
        · exact h2 hjl
    · rw [if_neg h2]
      push_neg at h2
      constructor
      · intro _
        refine ⟨⟨key?.getD "", ?_, h1.2⟩, ⟨iv?.getD "", ?_, h2.2⟩⟩
        · cases key? with
          | none => exact absurd rfl h1.1
          | some k => rfl
        · cases iv? with
          | none => exact absurd rfl h2.1
          | some j => rfl
      · intro _
        rfl

end MyStory
